import Mathlib

/-
Verification development for the joe-qoi QOI codec
(src/joe_qoi/codecs.py).  The Python code is shallowly embedded:
pixels are four integer channels, Python byte masking (`x &= 0xFF`)
is modelled with Int.emod 256, Python byte strings are lists of
naturals (each below 256 in any real input), and fallible code
returns Option.  The decoder's statement `px = self._lookup[index]`
makes `px` alias a live table entry; the embedding tracks that alias
explicitly in the field `pxSlot` so that in-place mutations of `px`
are reflected in the table exactly as in the Python object model.
-/

namespace JoeQoi

/-- RGBA pixel mirroring the dataclass `RgbaPixel` of codecs.py.
Channels are integers; within the codec they always stay in [0, 255]. -/
@[ext]
structure Pixel where
  r : Int
  g : Int
  b : Int
  a : Int
deriving DecidableEq

/-- Hashing function used to populate and index into the 64-pixel lookup
table: `(r * 3 + g * 5 + b * 7 + a * 11) % 64` (qoi_color_hash). -/
def qoi_color_hash (r g b a : Int) : Nat :=
  ((r * 3 + g * 5 + b * 7 + a * 11) % 64).toNat

/-- Hash of a whole pixel. -/
def hashPx (p : Pixel) : Nat :=
  qoi_color_hash p.r p.g p.b p.a

/-- Signed-character wraparound helper `wrap_around` of codecs.py. -/
def wrap_around (val : Int) : Int :=
  if 127 < val then val - 256
  else if val < -128 then val + 256
  else val

/-- All four channel values of a pixel lie in [0, 255]. -/
def PixelInRange (p : Pixel) : Prop :=
  0 ≤ p.r ∧ p.r ≤ 255 ∧ 0 ≤ p.g ∧ p.g ≤ 255 ∧
    0 ≤ p.b ∧ p.b ≤ 255 ∧ 0 ≤ p.a ∧ p.a ≤ 255

instance (p : Pixel) : Decidable (PixelInRange p) := by
  unfold PixelInRange; infer_instance

/-- `QoiEncoder.pack_diff`: store the three wrapped channel deltas in one
byte `0x40 | (dr+2)<<4 | (dg+2)<<2 | (db+2)`; Python raises ValueError
(modelled as none) unless every delta is in [-2, 1]. -/
def pack_diff (prev_px this_px : Pixel) : Option Nat :=
  let dr := wrap_around (this_px.r - prev_px.r)
  let dg := wrap_around (this_px.g - prev_px.g)
  let db := wrap_around (this_px.b - prev_px.b)
  if -2 ≤ dr ∧ dr ≤ 1 ∧ -2 ≤ dg ∧ dg ≤ 1 ∧ -2 ≤ db ∧ db ≤ 1 then
    some (64 ||| ((dr + 2).toNat <<< 4) ||| ((dg + 2).toNat <<< 2) ||| (db + 2).toNat)
  else none

/-- Big-endian 32-bit read at offset `i`, as `struct.unpack_from(">II")`
does on a byte string. -/
def be32 (bs : List Nat) (i : Nat) : Nat :=
  bs.getD i 0 * 16777216 + bs.getD (i + 1) 0 * 65536 +
    bs.getD (i + 2) 0 * 256 + bs.getD (i + 3) 0

/-- The four magic bytes "qoif". -/
def qoifMagic : List Nat := [113, 111, 105, 102]

/-- `QoiDecoder.decode_header`: magic check (validate only), then the two
`struct.unpack_from` calls (which raise struct.error when fewer than 14
bytes are present), then the channels/colorspace checks (validate only).
Any Python exception is modelled as none. -/
def decode_header (bs : List Nat) (validate : Bool) :
    Option (Nat × Nat × Bool × Bool) :=
  if validate ∧ bs.take 4 ≠ qoifMagic then none
  else if bs.length < 14 then none
  else if validate ∧ ¬(bs.getD 12 0 = 3 ∨ bs.getD 12 0 = 4) then none
  else if validate ∧ ¬(bs.getD 13 0 = 0 ∨ bs.getD 13 0 = 1) then none
  else some (be32 bs 4, be32 bs 8, bs.getD 12 0 == 4, bs.getD 13 0 == 1)

/-- State of `QoiDecoder._decode`: the 64-entry lookup table, the working
pixel `px`, the output pixel list, the byte cursor `_ix`, plus: `pxSlot`
records which table slot the Python object bound to `px` currently IS
(after `px = self._lookup[index]` the two are the same object, so
mutating `px` mutates that slot until the slot is reassigned); `tags`
is the list of cursor positions at which a chunk tag byte was fetched
(an observer recording `this_byte = self.qoi_data[self._ix]`); `bailed`
records the early `return` taken when too many pixels were produced. -/
structure DecState where
  lookup : List Pixel
  px : Pixel
  pxSlot : Option Nat
  pixels : List Pixel
  ix : Nat
  tags : List Nat
  bailed : Bool
deriving DecidableEq

/-- The four `&= 0xFF` statements forcing channels into [0, 255]. -/
def maskPx (p : Pixel) : Pixel :=
  ⟨p.r % 256, p.g % 256, p.b % 256, p.a % 256⟩

/-- Common tail of the `_decode` loop body: mask the channels, store a
copy of `px` at `self._lookup[hash]`, append a copy to the output, and
check the too-many-pixels bailout.  If `px` aliases a table slot, the
in-place channel mutations of the branch and the masking are reflected
there; storing the copy at the hash slot breaks the alias when the two
slots coincide. -/
def chunkTail (numPixels : Nat) (s : DecState) (p : Pixel) : DecState :=
  let pm := maskPx p
  let lk1 := match s.pxSlot with
    | some i => s.lookup.set i pm
    | none => s.lookup
  let pixels1 := s.pixels ++ [pm]
  { s with
    lookup := lk1.set (hashPx pm) pm
    px := pm
    pxSlot := if s.pxSlot = some (hashPx pm) then none else s.pxSlot
    pixels := pixels1
    bailed := decide (numPixels < pixels1.length) }

/-- One iteration of the `while` loop of `QoiDecoder._decode`: fetch the
tag byte at `_ix`, advance, dispatch on the two 8-bit tags and then the
four 2-bit tags, finishing with `chunkTail` except on the run branch
(which `continue`s).  Bit operations follow the source exactly; for a
byte below 256, `b & ~0xC0` is `b &&& 63`. -/
def decodeStep (data : List Nat) (numPixels : Nat) (s : DecState) : DecState :=
  let b := data.getD s.ix 0
  let s1 : DecState := { s with ix := s.ix + 1, tags := s.tags ++ [s.ix] }
  if b = 254 then
    chunkTail numPixels { s1 with ix := s1.ix + 3 }
      ⟨data.getD s1.ix 0, data.getD (s1.ix + 1) 0, data.getD (s1.ix + 2) 0, s1.px.a⟩
  else if b = 255 then
    chunkTail numPixels { s1 with ix := s1.ix + 4 }
      ⟨data.getD s1.ix 0, data.getD (s1.ix + 1) 0, data.getD (s1.ix + 2) 0,
        data.getD (s1.ix + 3) 0⟩
  else if b &&& 192 = 0 then
    chunkTail numPixels { s1 with pxSlot := some b } (s1.lookup.getD b ⟨0, 0, 0, 0⟩)
  else if b &&& 192 = 64 then
    chunkTail numPixels s1
      ⟨s1.px.r + (((b >>> 4) &&& 3 : Nat) : Int) - 2,
       s1.px.g + (((b >>> 2) &&& 3 : Nat) : Int) - 2,
       s1.px.b + ((b &&& 3 : Nat) : Int) - 2,
       s1.px.a⟩
  else if b &&& 192 = 128 then
    let b2 := data.getD s1.ix 0
    let dg : Int := ((b &&& 63 : Nat) : Int) - 32
    let drdg : Int := (((b2 &&& 240) >>> 4 : Nat) : Int) - 8
    let dbdg : Int := ((b2 &&& 15 : Nat) : Int) - 8
    chunkTail numPixels { s1 with ix := s1.ix + 1 }
      ⟨s1.px.r + (dg + drdg) % 256, s1.px.g + dg,
       s1.px.b + (dg + dbdg) % 256, s1.px.a⟩
  else
    { s1 with pixels := s1.pixels ++ List.replicate ((b &&& 63) + 1) s1.px }

/-- The `while self._ix < (self._qoi_data_len - 8)` loop, fuelled; one
unit of fuel per iteration (the cursor strictly increases each
iteration, so fuel `data.length` is always enough).  A set `bailed`
flag stops the loop like the early `return` does. -/
def decodeLoop (data : List Nat) (numPixels : Nat) : Nat → DecState → DecState
  | 0, s => s
  | fuel + 1, s =>
    if s.bailed then s
    else if (s.ix : Int) < (data.length : Int) - 8 then
      decodeLoop data numPixels fuel (decodeStep data numPixels s)
    else s

/-- Decoder state right after `_read_header`: cursor at byte 14, lookup
table of 64 zero pixels, working pixel (0, 0, 0, 255). -/
def initDecState : DecState :=
  { lookup := List.replicate 64 ⟨0, 0, 0, 0⟩
    px := ⟨0, 0, 0, 255⟩
    pxSlot := none
    pixels := []
    ix := 14
    tags := []
    bailed := false }

/-- The 8-byte end marker: seven 0x00 bytes followed by 0x01. -/
def qoiTerminator : List Nat := [0, 0, 0, 0, 0, 0, 0, 1]

/-- `QoiDecoder.__init__`: parse and validate the header from the first
14 bytes, run `_decode` from cursor 14, and fail (none) when the early
bailout fired, when the remaining bytes are not the end marker, or when
the pixel count disagrees with width*height. -/
def decodeQoi (data : List Nat) : Option ((Nat × Nat × Bool × Bool) × List Pixel) :=
  match decode_header (data.take 14) true with
  | none => none
  | some (w, h, ha, al) =>
    let s := decodeLoop data (w * h) data.length initDecState
    if s.bailed then none
    else if data.drop s.ix ≠ qoiTerminator then none
    else if s.pixels.length ≠ w * h then none
    else some ((w, h, ha, al), s.pixels)

/-- `QoiEncoder.__init__` (codecs.py lines 51-74): stores the pixel list
and metadata, then invokes `self._encode()`, whose entire body is
`raise NotImplementedError`; construction therefore never returns
normally for any input, modelled as none. -/
def pyQoiEncoderInit (rgba_pixels : List Pixel) (width height : Nat)
    (has_alpha all_linear : Bool) : Option (List Nat) :=
  none

/-- Modelled from the spec: the body of `QoiEncoder._encode` is absent
from the source (the stub raises NotImplementedError), so spec section
4.2/9 supplies the arithmetic: a raw channel delta interpreted as an
8-bit two's-complement value. -/
def twosComp (d : Int) : Int :=
  (d + 128) % 256 - 128

/-- Modelled from the spec: QOI_OP_RUN packing with its range check;
run lengths outside [1, 62] are an internal OutOfRange error (none). -/
def packRunBytes (n : Nat) : Option (List Nat) :=
  if 1 ≤ n ∧ n ≤ 62 then some [192 + (n - 1)] else none

/-- Modelled from the spec: encoder state of section 4.3 — previous
pixel, RunningIndex, run counter, and the bytes emitted so far. -/
structure EncState where
  prev : Pixel
  lookup : List Pixel
  run : Nat
  out : List Nat
deriving DecidableEq

/-- Modelled from the spec: initial encoder state (previous pixel
(0, 0, 0, 255), all 64 RunningIndex slots zero, run counter 0). -/
def initEncState : EncState :=
  { prev := ⟨0, 0, 0, 255⟩
    lookup := List.replicate 64 ⟨0, 0, 0, 0⟩
    run := 0
    out := [] }

/-- Modelled from the spec: the per-pixel decision procedure of section
4.3, branches in exact order: run continuation (flushing at 62), run
flush, index hit (no RunningIndex rewrite), same-alpha DIFF / LUMA /
RGB, different-alpha RGBA; after a non-run emission the pixel is stored
at RunningIndex[hash] and becomes the previous pixel. -/
def encodePixelStep (s : EncState) (cur : Pixel) : Option EncState :=
  if cur = s.prev then
    if s.run + 1 = 62 then
      match packRunBytes 62 with
      | none => none
      | some bs => some { s with run := 0, out := s.out ++ bs }
    else
      some { s with run := s.run + 1 }
  else
    match (if 0 < s.run then packRunBytes s.run else some []) with
    | none => none
    | some runBytes =>
      let out1 := s.out ++ runBytes
      let h := hashPx cur
      if s.lookup.getD h ⟨0, 0, 0, 0⟩ = cur then
        some { prev := cur, lookup := s.lookup, run := 0, out := out1 ++ [h] }
      else
        let chunk : List Nat :=
          if cur.a = s.prev.a then
            let dr := twosComp (cur.r - s.prev.r)
            let dg := twosComp (cur.g - s.prev.g)
            let db := twosComp (cur.b - s.prev.b)
            if -2 ≤ dr ∧ dr ≤ 1 ∧ -2 ≤ dg ∧ dg ≤ 1 ∧ -2 ≤ db ∧ db ≤ 1 then
              [64 ||| ((dr + 2).toNat <<< 4) ||| ((dg + 2).toNat <<< 2) |||
                (db + 2).toNat]
            else if -32 ≤ dg ∧ dg ≤ 31 ∧ -8 ≤ dr - dg ∧ dr - dg ≤ 7 ∧
                -8 ≤ db - dg ∧ db - dg ≤ 7 then
              [128 ||| (dg + 32).toNat,
                ((dr - dg + 8).toNat <<< 4) ||| (db - dg + 8).toNat]
            else
              [254, cur.r.toNat, cur.g.toNat, cur.b.toNat]
          else
            [255, cur.r.toNat, cur.g.toNat, cur.b.toNat, cur.a.toNat]
        some { prev := cur, lookup := s.lookup.set h cur, run := 0,
               out := out1 ++ chunk }

/-- Modelled from the spec: drive the section 4.3 procedure across the
whole pixel sequence. -/
def encodeList : List Pixel → EncState → Option EncState
  | [], s => some s
  | p :: ps, s =>
    match encodePixelStep s p with
    | none => none
    | some s1 => encodeList ps s1

/-- Big-endian byte decomposition of a 32-bit value. -/
def be32Bytes (n : Nat) : List Nat :=
  [n / 16777216 % 256, n / 65536 % 256, n / 256 % 256, n % 256]

/-- Modelled from the spec: the 14-byte header emit of section 4.1. -/
def specHeader (width height : Nat) (has_alpha all_linear : Bool) : List Nat :=
  qoifMagic ++ be32Bytes width ++ be32Bytes height ++
    [if has_alpha then 4 else 3, if all_linear then 1 else 0]

/-- Modelled from the spec: the encode entry point (sections 4.3 and 6).
Rejects metadata whose width*height differs from the pixel count
(channel count and colorspace tag are boolean metadata here, so the
channel-set and colorspace-set rejections cannot fire); then runs the
state machine, flushes a pending run, and appends the terminator. -/
def specEncode (pixels : List Pixel) (width height : Nat)
    (has_alpha all_linear : Bool) : Option (List Nat) :=
  if width * height ≠ pixels.length then none
  else
    match encodeList pixels initEncState with
    | none => none
    | some st =>
      match (if 0 < st.run then packRunBytes st.run else some []) with
      | none => none
      | some flush =>
        some (specHeader width height has_alpha all_linear ++
          st.out ++ flush ++ qoiTerminator)

/-- A 22-byte stream: a valid header declaring width = 0 and height = 0
(RGB, sRGB) followed immediately by the 8-byte end marker.  Byte 14,
the first byte after the header, sits exactly at length - 8. -/
def zeroDimStream : List Nat :=
  [113, 111, 105, 102, 0, 0, 0, 0, 0, 0, 0, 0, 3, 0,
   0, 0, 0, 0, 0, 0, 0, 1]

/-- A 26-byte stream: valid 1x1 RGB header, one QOI_OP_RGB chunk
(10, 100, 200), then the end marker. -/
def rgbOneStream : List Nat :=
  [113, 111, 105, 102, 0, 0, 0, 1, 0, 0, 0, 1, 3, 0,
   254, 10, 100, 200,
   0, 0, 0, 0, 0, 0, 0, 1]

/-- A 27-byte stream: valid 2x1 RGB header, a QOI_OP_RGB chunk with
pixel (1, 16, 8) — whose hash is 0 — then a QOI_OP_INDEX chunk reading
the untouched slot 5, then the end marker. -/
def indexPushStream : List Nat :=
  [113, 111, 105, 102, 0, 0, 0, 2, 0, 0, 0, 1, 3, 0,
   254, 1, 16, 8,
   5,
   0, 0, 0, 0, 0, 0, 0, 1]

/-! ### Helper lemmas -/

theorem getD_set_self {α : Type} (l : List α) (n : Nat) (v d : α)
    (h : n < l.length) : (l.set n v).getD n d = v := by
  induction l generalizing n with
  | nil => simp at h
  | cons x xs ih =>
    cases n with
    | zero => rfl
    | succ m =>
      simp only [List.set_cons_succ, List.getD_cons_succ]
      exact ih m (by simpa using h)

theorem getD_set_ne {α : Type} (l : List α) (m n : Nat) (v d : α)
    (h : m ≠ n) : (l.set m v).getD n d = l.getD n d := by
  induction l generalizing m n with
  | nil => simp
  | cons x xs ih =>
    cases m with
    | zero =>
      cases n with
      | zero => exact absurd rfl h
      | succ k => rfl
    | succ j =>
      cases n with
      | zero => rfl
      | succ k =>
        simp only [List.set_cons_succ, List.getD_cons_succ]
        exact ih j k (by omega)

theorem set_getD_self {α : Type} (l : List α) (n : Nat) (d : α) :
    l.set n (l.getD n d) = l := by
  induction l generalizing n with
  | nil => rfl
  | cons x xs ih =>
    cases n with
    | zero => rfl
    | succ m =>
      simp only [List.getD_cons_succ, List.set_cons_succ, List.cons.injEq,
        true_and]
      exact ih m

theorem hashPx_lt (p : Pixel) : hashPx p < 64 := by
  unfold hashPx qoi_color_hash
  omega

theorem maskPx_of_inRange (p : Pixel) (h : PixelInRange p) : maskPx p = p := by
  obtain ⟨h1, h2, h3, h4, h5, h6, h7, h8⟩ := h
  unfold maskPx
  ext <;> simp only [] <;> omega

/-! ### C4 — header parsing with validation -/

/-- C4: `decode_header` with validation fails exactly when the input is
shorter than 14 bytes, the magic differs from "qoif", the channels byte
is outside {3, 4}, or the colorspace byte is outside {0, 1}; on success
it returns width and height read big-endian at offsets 4 and 8,
has_alpha iff channels = 4, and all_linear iff colorspace = 1. -/
theorem decode_header_validate_spec (bs : List Nat) :
    ((decode_header bs true).isSome ↔
      (14 ≤ bs.length ∧ bs.take 4 = qoifMagic ∧
        (bs.getD 12 0 = 3 ∨ bs.getD 12 0 = 4) ∧
        (bs.getD 13 0 = 0 ∨ bs.getD 13 0 = 1))) ∧
    (decode_header bs true = none ∨
      decode_header bs true =
        some (be32 bs 4, be32 bs 8, bs.getD 12 0 == 4, bs.getD 13 0 == 1)) := by
  constructor
  · unfold decode_header
    split_ifs with h1 h2 h3 h4 <;> simp_all <;> omega
  · unfold decode_header
    split_ifs <;> simp

/-- A syntactically valid 14-byte header: 1x1, RGB, sRGB. -/
def goodHeader : List Nat := [113, 111, 105, 102, 0, 0, 0, 1, 0, 0, 0, 1, 3, 0]

/-- Witness for C4 at a concrete valid header. -/
theorem decode_header_validate_spec_witness :
    (decode_header goodHeader true).isSome :=
  (decode_header_validate_spec goodHeader).1.mpr (by decide)

/-! ### C10 — header parsing without validation -/

/-- C10: with validate = false, `decode_header` succeeds on every
14-byte input — wrong magic, channels outside {3, 4} and colorspace
outside {0, 1} included — returning the parsed tuple. -/
theorem decode_header_no_validate_total (bs : List Nat) (hlen : bs.length = 14) :
    decode_header bs false =
      some (be32 bs 4, be32 bs 8, bs.getD 12 0 == 4, bs.getD 13 0 == 1) := by
  unfold decode_header
  rw [if_neg (by simp), if_neg (by omega), if_neg (by simp), if_neg (by simp)]

/-- A 14-byte input with wrong magic, channels byte 12 and colorspace
byte 13, all of which only validation would reject. -/
def junkHeader : List Nat := [0, 1, 2, 3, 4, 5, 6, 7, 8, 9, 10, 11, 12, 13]

/-- Witness for C10 at a concrete junk header. -/
theorem decode_header_no_validate_total_witness :
    decode_header junkHeader false =
      some (be32 junkHeader 4, be32 junkHeader 8,
        junkHeader.getD 12 0 == 4, junkHeader.getD 13 0 == 1) :=
  decode_header_no_validate_total junkHeader rfl

/-! ### C8 — pack_diff -/

/-- C8: `pack_diff` interprets each raw channel difference as an 8-bit
two's-complement value, and when all three wrapped deltas lie in
[-2, 1] it returns the single byte
`0x40 | (dr+2)<<4 | (dg+2)<<2 | (db+2)`. -/
theorem pack_diff_spec (prev_px this_px : Pixel)
    (hp : PixelInRange prev_px) (ht : PixelInRange this_px)
    (hdr1 : -2 ≤ wrap_around (this_px.r - prev_px.r))
    (hdr2 : wrap_around (this_px.r - prev_px.r) ≤ 1)
    (hdg1 : -2 ≤ wrap_around (this_px.g - prev_px.g))
    (hdg2 : wrap_around (this_px.g - prev_px.g) ≤ 1)
    (hdb1 : -2 ≤ wrap_around (this_px.b - prev_px.b))
    (hdb2 : wrap_around (this_px.b - prev_px.b) ≤ 1) :
    pack_diff prev_px this_px =
      some (64 ||| ((wrap_around (this_px.r - prev_px.r) + 2).toNat <<< 4) |||
        ((wrap_around (this_px.g - prev_px.g) + 2).toNat <<< 2) |||
        (wrap_around (this_px.b - prev_px.b) + 2).toNat) ∧
    wrap_around (this_px.r - prev_px.r) =
      (this_px.r - prev_px.r + 128) % 256 - 128 ∧
    wrap_around (this_px.g - prev_px.g) =
      (this_px.g - prev_px.g + 128) % 256 - 128 ∧
    wrap_around (this_px.b - prev_px.b) =
      (this_px.b - prev_px.b + 128) % 256 - 128 := by
  obtain ⟨hp1, hp2, hp3, hp4, hp5, hp6, hp7, hp8⟩ := hp
  obtain ⟨ht1, ht2, ht3, ht4, ht5, ht6, ht7, ht8⟩ := ht
  refine ⟨?_, ?_, ?_, ?_⟩
  · unfold pack_diff
    dsimp only
    rw [if_pos ⟨hdr1, hdr2, hdg1, hdg2, hdb1, hdb2⟩]
  all_goals unfold wrap_around; split_ifs <;> omega

/-- Witness for C8: the spec's own two concrete examples, yielding
0x4B = 75 and (through wrap-around) 0x47 = 71. -/
theorem pack_diff_spec_witness :
    pack_diff ⟨5, 5, 5, 255⟩ ⟨3, 5, 6, 255⟩ = some 75 ∧
    pack_diff ⟨255, 2, 255, 255⟩ ⟨253, 1, 0, 255⟩ = some 71 :=
  ⟨(pack_diff_spec ⟨5, 5, 5, 255⟩ ⟨3, 5, 6, 255⟩ (by decide) (by decide)
      (by decide) (by decide) (by decide) (by decide) (by decide) (by decide)).1,
   (pack_diff_spec ⟨255, 2, 255, 255⟩ ⟨253, 1, 0, 255⟩ (by decide) (by decide)
      (by decide) (by decide) (by decide) (by decide) (by decide) (by decide)).1⟩

/-! ### C2 — cursor discipline (corrected: the bound is strict) -/

theorem decodeStep_tags (data : List Nat) (np : Nat) (s : DecState) :
    (decodeStep data np s).tags = s.tags ++ [s.ix] := by
  unfold decodeStep chunkTail
  dsimp only
  split_ifs <;> rfl

theorem decodeStep_ix_gt (data : List Nat) (np : Nat) (s : DecState) :
    s.ix < (decodeStep data np s).ix := by
  unfold decodeStep chunkTail
  dsimp only
  split_ifs <;> simp <;> omega

theorem decodeLoop_tags_bound (data : List Nat) (np : Nat) :
    ∀ (fuel : Nat) (s : DecState),
      (∀ q ∈ s.tags, 14 ≤ q ∧ (q : Int) < (data.length : Int) - 8) →
      14 ≤ s.ix →
      ∀ p ∈ (decodeLoop data np fuel s).tags,
        14 ≤ p ∧ (p : Int) < (data.length : Int) - 8
  | 0, s, hinv, hix => hinv
  | fuel + 1, s, hinv, hix => by
    unfold decodeLoop
    split_ifs with hbail hcond
    · exact hinv
    · refine decodeLoop_tags_bound data np fuel (decodeStep data np s) ?_ ?_
      · rw [decodeStep_tags]
        intro q hq
        rcases List.mem_append.1 hq with hq | hq
        · exact hinv q hq
        · have : q = s.ix := by simpa using hq
          subst this
          exact ⟨hix, hcond⟩
      · have := decodeStep_ix_gt data np s
        omega
    · exact hinv

/-- C2 (amended): the cursor starts at byte 14, and the decoder fetches
a chunk tag byte at position p only when p is strictly below
length - 8 (equivalently p ≤ length - 9); a tag sitting exactly at
length - 8 is never fetched. -/
theorem cursor_strict_bound (data : List Nat) (np fuel p : Nat)
    (hp : p ∈ (decodeLoop data np fuel initDecState).tags) :
    initDecState.ix = 14 ∧ 14 ≤ p ∧ (p : Int) < (data.length : Int) - 8 :=
  ⟨rfl, decodeLoop_tags_bound data np fuel initDecState
    (by intro q hq; simp [initDecState] at hq) (by decide) p hp⟩

/-- Witness for C2: on the 1x1 RGB stream the tag at byte 14 is
fetched, and indeed 14 < 26 - 8. -/
theorem cursor_strict_bound_witness :
    initDecState.ix = 14 ∧ 14 ≤ 14 ∧
      ((14 : Nat) : Int) < (rgbOneStream.length : Int) - 8 :=
  cursor_strict_bound rgbOneStream 1 rgbOneStream.length 14 (by decide)

/-- Counterexample for C2 as stated: in `zeroDimStream` position
14 = length - 8 holds a byte (a well-formed QOI_OP_INDEX tag), and the
claim's "p ≤ length - 8" would make the decoder fetch it, yet the loop
performs no fetch at all (it treats those bytes as the terminator). -/
theorem cursor_le_bound_cex :
    zeroDimStream.length - 8 = 14 ∧ 14 < zeroDimStream.length ∧
    zeroDimStream.getD 14 0 &&& 192 = 0 ∧
    (decodeLoop zeroDimStream 0 zeroDimStream.length initDecState).tags = [] := by
  decide

/-! ### C5 — zero dimensions (corrected: the decoder accepts them) -/

/-- C5 (amended): a stream whose otherwise-valid header declares
width = 0 or height = 0 and whose remaining bytes are exactly the
8-byte terminator decodes successfully to an empty pixel list — the
decoder accepts zero dimensions; encoder construction fails for every
input (its `_encode` is the NotImplementedError stub), in particular
for zero dimensions. -/
theorem zero_dims_behavior (data : List Nat) (w h : Nat) (ha al : Bool)
    (pixels : List Pixel)
    (hhdr : decode_header (data.take 14) true = some (w, h, ha, al))
    (hzero : w = 0 ∨ h = 0)
    (hterm : data.drop 14 = qoiTerminator)
    (hlen : data.length = 22) :
    decodeQoi data = some ((w, h, ha, al), []) ∧
    pyQoiEncoderInit pixels w h ha al = none := by
  refine ⟨?_, rfl⟩
  unfold decodeQoi
  rw [hhdr]
  dsimp only
  have hloop : decodeLoop data (w * h) data.length initDecState = initDecState := by
    rw [hlen]
    show decodeLoop data (w * h) (21 + 1) initDecState = initDecState
    unfold decodeLoop
    rw [if_neg (by decide), hlen, if_neg (by decide)]
  rw [hloop]
  have hmul : w * h = 0 := by rcases hzero with rfl | rfl <;> simp
  rw [show initDecState.ix = 14 from rfl,
    show initDecState.pixels = ([] : List Pixel) from rfl,
    if_neg (by decide), if_neg (not_ne_iff.mpr hterm), if_neg (by simp [hmul])]

/-- Witness for C5 (amended) at the concrete zero-dimension stream. -/
theorem zero_dims_behavior_witness :
    decodeQoi zeroDimStream = some ((0, 0, false, false), []) ∧
    pyQoiEncoderInit [] 0 0 false false = none :=
  zero_dims_behavior zeroDimStream 0 0 false false []
    (by decide) (Or.inl rfl) (by decide) (by decide)

/-- Counterexample for C5 as stated: decoding a stream whose valid
header declares width = height = 0 does not fail — it succeeds with an
empty pixel list. -/
theorem zero_dims_decode_accepted_cex :
    decodeQoi zeroDimStream = some ((0, 0, false, false), []) := by
  decide

/-! ### C3 — QOI_OP_INDEX (corrected: the index path does push) -/

set_option maxRecDepth 8192 in
theorem and63_of_and192_zero :
    ∀ b : Nat, b < 256 → b &&& 192 = 0 → b &&& 63 = b := by decide

/-- C3 (amended): a QOI_OP_INDEX chunk sets the current pixel to
RunningIndex[low 6 bits of the tag byte] and then stores that pixel
back into RunningIndex[hash(pixel)] — the index path does push into
the table; slots other than hash(pixel) keep their values, but slot
hash(pixel) is overwritten (with a value that can differ from its old
content). -/
theorem index_chunk_pushes (data : List Nat) (np : Nat) (s : DecState) (b : Nat)
    (hb : data.getD s.ix 0 = b) (htag : b &&& 192 = 0) (hblt : b < 256)
    (hr : PixelInRange (s.lookup.getD (b &&& 63) ⟨0, 0, 0, 0⟩)) :
    (decodeStep data np s).px = s.lookup.getD (b &&& 63) ⟨0, 0, 0, 0⟩ ∧
    (decodeStep data np s).lookup =
      s.lookup.set (hashPx (decodeStep data np s).px) (decodeStep data np s).px ∧
    ∀ j, j ≠ hashPx (decodeStep data np s).px →
      (decodeStep data np s).lookup.getD j ⟨0, 0, 0, 0⟩ =
        s.lookup.getD j ⟨0, 0, 0, 0⟩ := by
  have h63 := and63_of_and192_zero b hblt htag
  have h254 : b ≠ 254 := by rintro rfl; exact absurd htag (by decide)
  have h255 : b ≠ 255 := by rintro rfl; exact absurd htag (by decide)
  rw [h63] at hr ⊢
  have hstep : decodeStep data np s =
      chunkTail np
        { s with ix := s.ix + 1, tags := s.tags ++ [s.ix], pxSlot := some b }
        (s.lookup.getD b ⟨0, 0, 0, 0⟩) := by
    unfold decodeStep
    dsimp only
    rw [hb, if_neg h254, if_neg h255, if_pos htag]
  rw [hstep]
  unfold chunkTail
  rw [maskPx_of_inRange _ hr]
  dsimp only
  rw [set_getD_self]
  refine ⟨rfl, rfl, ?_⟩
  intro j hj
  exact getD_set_ne _ _ _ _ _ (Ne.symm hj)

/-- A reachable-shaped decoder state: slot 5 of the table holds
(7, 7, 7, 255), the working pixel is (1, 2, 3, 255). -/
def ixState : DecState :=
  { lookup := (List.replicate 64 ⟨0, 0, 0, 0⟩).set 5 ⟨7, 7, 7, 255⟩
    px := ⟨1, 2, 3, 255⟩
    pxSlot := none
    pixels := []
    ix := 0
    tags := []
    bailed := false }

/-- Witness for C3 (amended): an INDEX chunk with tag byte 5 on
`ixState`; slot 0 (distinct from the fetched pixel's hash, 30) keeps
its value. -/
theorem index_chunk_pushes_witness :
    (decodeStep [5] 9 ixState).px = ixState.lookup.getD (5 &&& 63) ⟨0, 0, 0, 0⟩ ∧
    (decodeStep [5] 9 ixState).lookup =
      ixState.lookup.set (hashPx (decodeStep [5] 9 ixState).px)
        (decodeStep [5] 9 ixState).px ∧
    (decodeStep [5] 9 ixState).lookup.getD 0 ⟨0, 0, 0, 0⟩ =
      ixState.lookup.getD 0 ⟨0, 0, 0, 0⟩ := by
  have h := index_chunk_pushes [5] 9 ixState 5 rfl (by decide) (by decide) (by decide)
  exact ⟨h.1, h.2.1, h.2.2 0 (by decide)⟩

/-- Counterexample for C3 as stated: in `indexPushStream`, after the
first chunk the table's slot 0 holds (1, 16, 8, 255); the second chunk
is QOI_OP_INDEX with tag byte 5, and processing it overwrites slot 0
with (0, 0, 0, 0) — the index path does not leave every RunningIndex
slot unchanged. -/
theorem index_push_changes_slot_cex :
    indexPushStream.getD 18 0 = 5 ∧ (5 : Nat) &&& 192 = 0 ∧
    (decodeLoop indexPushStream 2 1 initDecState).ix = 18 ∧
    (decodeLoop indexPushStream 2 1 initDecState).lookup.getD 0 ⟨0, 0, 0, 0⟩ =
      ⟨1, 16, 8, 255⟩ ∧
    (decodeLoop indexPushStream 2 2 initDecState).lookup.getD 0 ⟨0, 0, 0, 0⟩ =
      ⟨0, 0, 0, 0⟩ := by
  decide

/-! ### C9 — RunningIndex discipline -/

theorem chunkTail_lookup_px (np : Nat) (s : DecState) (p : Pixel)
    (hlen : s.lookup.length = 64) :
    (chunkTail np s p).lookup.getD (hashPx (chunkTail np s p).px) ⟨0, 0, 0, 0⟩ =
      (chunkTail np s p).px := by
  unfold chunkTail
  dsimp only
  apply getD_set_self
  have hlt := hashPx_lt (maskPx p)
  cases hs : s.pxSlot <;> simp [List.length_set, hlen] <;> omega

/-- C9: immediately after the decoder processes a QOI_OP_RGB,
QOI_OP_RGBA, QOI_OP_DIFF or QOI_OP_LUMA chunk (every chunk form except
QOI_OP_INDEX and QOI_OP_RUN, which the claim exempts), the
RunningIndex slot at the hash of the new previous pixel holds exactly
that pixel. -/
theorem lookup_tracks_previous (data : List Nat) (np : Nat) (s : DecState)
    (b : Nat) (hlen : s.lookup.length = 64) (hb : data.getD s.ix 0 = b)
    (hchunk : b = 254 ∨ b = 255 ∨ b &&& 192 = 64 ∨ b &&& 192 = 128) :
    (decodeStep data np s).lookup.getD
        (hashPx (decodeStep data np s).px) ⟨0, 0, 0, 0⟩ =
      (decodeStep data np s).px := by
  unfold decodeStep
  dsimp only
  rw [hb]
  rcases hchunk with rfl | rfl | h | h
  · rw [if_pos rfl]
    exact chunkTail_lookup_px _ _ _ hlen
  · rw [if_neg (by decide), if_pos rfl]
    exact chunkTail_lookup_px _ _ _ hlen
  · have h254 : b ≠ 254 := by rintro rfl; exact absurd h (by decide)
    have h255 : b ≠ 255 := by rintro rfl; exact absurd h (by decide)
    have h0 : ¬(b &&& 192 = 0) := by simp [h]
    rw [if_neg h254, if_neg h255, if_neg h0, if_pos h]
    exact chunkTail_lookup_px _ _ _ hlen
  · have h254 : b ≠ 254 := by rintro rfl; exact absurd h (by decide)
    have h255 : b ≠ 255 := by rintro rfl; exact absurd h (by decide)
    have h0 : ¬(b &&& 192 = 0) := by simp [h]
    have h64 : ¬(b &&& 192 = 64) := by simp [h]
    rw [if_neg h254, if_neg h255, if_neg h0, if_neg h64, if_pos h]
    exact chunkTail_lookup_px _ _ _ hlen

/-- A decoder state whose previous pixel is (5, 5, 5, 255) and whose
table is all zeros. -/
def diffState : DecState :=
  { lookup := List.replicate 64 ⟨0, 0, 0, 0⟩
    px := ⟨5, 5, 5, 255⟩
    pxSlot := none
    pixels := []
    ix := 0
    tags := []
    bailed := false }

/-- Witness for C9: a QOI_OP_DIFF chunk (byte 0x4B) on `diffState`. -/
theorem lookup_tracks_previous_witness :
    (decodeStep [75] 9 diffState).lookup.getD
        (hashPx (decodeStep [75] 9 diffState).px) ⟨0, 0, 0, 0⟩ =
      (decodeStep [75] 9 diffState).px :=
  lookup_tracks_previous [75] 9 diffState 75 (by decide) rfl
    (Or.inr (Or.inr (Or.inl (by decide))))

/-! ### C6 — QOI_OP_LUMA -/

set_option maxRecDepth 8192 in
theorem mask_shift_swap :
    ∀ x : Nat, x < 256 → (x &&& 240) >>> 4 = (x >>> 4) &&& 15 := by decide

/-- C6: a QOI_OP_LUMA chunk (tag byte b, second byte b2) turns the
previous pixel (pr, pg, pb, pa) into
((pr + dg + dr_dg) mod 256, (pg + dg) mod 256, (pb + dg + db_dg) mod
256, pa) with dg = (b & 0x3F) - 32, dr_dg = ((b2 >> 4) & 0x0F) - 8 and
db_dg = (b2 & 0x0F) - 8. -/
theorem luma_chunk_formula (data : List Nat) (np : Nat) (s : DecState)
    (b b2 : Nat) (hb : data.getD s.ix 0 = b)
    (hb2 : data.getD (s.ix + 1) 0 = b2)
    (htag : b &&& 192 = 128) (hb2lt : b2 < 256) (hpx : PixelInRange s.px) :
    (decodeStep data np s).px =
      ⟨(s.px.r + (((b &&& 63 : Nat) : Int) - 32) +
          ((((b2 >>> 4) &&& 15 : Nat) : Int) - 8)) % 256,
       (s.px.g + (((b &&& 63 : Nat) : Int) - 32)) % 256,
       (s.px.b + (((b &&& 63 : Nat) : Int) - 32) +
          (((b2 &&& 15 : Nat) : Int) - 8)) % 256,
       s.px.a⟩ := by
  obtain ⟨h1, h2, h3, h4, h5, h6, h7, h8⟩ := hpx
  have h254 : b ≠ 254 := by rintro rfl; exact absurd htag (by decide)
  have h255 : b ≠ 255 := by rintro rfl; exact absurd htag (by decide)
  have h0 : ¬(b &&& 192 = 0) := by simp [htag]
  have h64 : ¬(b &&& 192 = 64) := by simp [htag]
  have hsw := mask_shift_swap b2 hb2lt
  unfold decodeStep
  dsimp only
  rw [hb, if_neg h254, if_neg h255, if_neg h0, if_neg h64, if_pos htag]
  unfold chunkTail maskPx
  dsimp only
  rw [hb2, hsw]
  ext <;> dsimp only <;> omega

/-- A decoder state whose previous pixel is (100, 100, 100, 255). -/
def lumaState : DecState :=
  { lookup := List.replicate 64 ⟨0, 0, 0, 0⟩
    px := ⟨100, 100, 100, 255⟩
    pxSlot := none
    pixels := []
    ix := 0
    tags := []
    bailed := false }

/-- Witness for C6: the spec's LUMA example — bytes B4 3D on previous
pixel (100, 100, 100, 255) produce (115, 120, 125, 255). -/
theorem luma_chunk_formula_witness :
    (decodeStep [180, 61] 5 lumaState).px = ⟨115, 120, 125, 255⟩ := by
  have h := luma_chunk_formula [180, 61] 5 lumaState 180 61 rfl rfl
    (by decide) (by decide) (by decide)
  rw [h]
  decide

/-! ### C7 — QOI_OP_RUN -/

/-- C7: a QOI_OP_RUN chunk (tag byte b with top bits 11, not 0xFE or
0xFF) appends exactly (b & 0x3F) + 1 copies of the previous pixel to
the output and leaves everything else — RunningIndex, previous pixel,
alias, bail flag — untouched, advancing the cursor by one. -/
theorem run_chunk_effect (data : List Nat) (np : Nat) (s : DecState) (b : Nat)
    (hb : data.getD s.ix 0 = b) (htag : b &&& 192 = 192)
    (h254 : b ≠ 254) (h255 : b ≠ 255) :
    decodeStep data np s =
      { s with
        ix := s.ix + 1
        tags := s.tags ++ [s.ix]
        pixels := s.pixels ++ List.replicate ((b &&& 63) + 1) s.px } := by
  have h0 : ¬(b &&& 192 = 0) := by simp [htag]
  have h64 : ¬(b &&& 192 = 64) := by simp [htag]
  have h128 : ¬(b &&& 192 = 128) := by simp [htag]
  unfold decodeStep
  dsimp only
  rw [hb, if_neg h254, if_neg h255, if_neg h0, if_neg h64, if_neg h128]

/-- A decoder state whose previous pixel is (9, 9, 9, 255). -/
def runState : DecState :=
  { lookup := List.replicate 64 ⟨0, 0, 0, 0⟩
    px := ⟨9, 9, 9, 255⟩
    pxSlot := none
    pixels := []
    ix := 0
    tags := []
    bailed := false }

/-- Witness for C7: tag byte 0xF1 = run of 50 copies of (9, 9, 9, 255). -/
theorem run_chunk_effect_witness :
    decodeStep [241] 99 runState =
      { runState with
        ix := 1
        tags := [0]
        pixels := List.replicate 50 ⟨9, 9, 9, 255⟩ } := by
  have h := run_chunk_effect [241] 99 runState 241 rfl (by decide)
    (by decide) (by decide)
  exact h

/-! ### C1 — encoder totality (spec-modelled, `_encode` absent from src) -/

theorem encodePixelStep_total (s : EncState) (cur : Pixel) (h : s.run ≤ 61) :
    ∃ s1, encodePixelStep s cur = some s1 ∧ s1.run ≤ 61 := by
  unfold encodePixelStep
  by_cases h1 : cur = s.prev
  · rw [if_pos h1]
    by_cases h2 : s.run + 1 = 62
    · rw [if_pos h2]
      have hp : packRunBytes 62 = some [253] := rfl
      rw [hp]
      exact ⟨_, rfl, by simp⟩
    · rw [if_neg h2]
      refine ⟨_, rfl, ?_⟩
      show s.run + 1 ≤ 61
      omega
  · rw [if_neg h1]
    have hrun : (if 0 < s.run then packRunBytes s.run else some []) =
        some (if 0 < s.run then [192 + (s.run - 1)] else []) := by
      split_ifs with h3
      · unfold packRunBytes
        rw [if_pos (by omega)]
      · rfl
    rw [hrun]
    dsimp only
    by_cases h4 : s.lookup.getD (hashPx cur) ⟨0, 0, 0, 0⟩ = cur
    · rw [if_pos h4]
      exact ⟨_, rfl, by simp⟩
    · rw [if_neg h4]
      exact ⟨_, rfl, by simp⟩

theorem encodeList_total :
    ∀ (ps : List Pixel) (s : EncState), s.run ≤ 61 →
      ∃ s1, encodeList ps s = some s1 ∧ s1.run ≤ 61
  | [], s, h => ⟨s, rfl, h⟩
  | p :: ps, s, h => by
    obtain ⟨s1, hs1, hr1⟩ := encodePixelStep_total s p h
    unfold encodeList
    rw [hs1]
    exact encodeList_total ps s1 hr1

/-- C1 (spec-modelled): for boolean channel/colorspace metadata, the
section 4.3 encoder accepts an input exactly when width*height equals
the pixel count — every legal pixel sequence encodes successfully (no
internal range check ever fires), and the only rejection is the
width*height/pixel-count mismatch. -/
theorem encoder_accepts_iff_pixel_count (pixels : List Pixel)
    (width height : Nat) (has_alpha all_linear : Bool)
    (hr : ∀ p ∈ pixels, PixelInRange p) :
    (specEncode pixels width height has_alpha all_linear).isSome ↔
      width * height = pixels.length := by
  unfold specEncode
  by_cases hc : width * height = pixels.length
  · rw [if_neg (by omega)]
    obtain ⟨st, hst, hrun⟩ :=
      encodeList_total pixels initEncState (by simp [initEncState])
    rw [hst]
    dsimp only
    rcases Nat.eq_zero_or_pos st.run with h0 | h0
    · rw [if_neg (by omega)]
      simp [hc]
    · rw [if_pos h0]
      unfold packRunBytes
      rw [if_pos (by omega)]
      simp [hc]
  · rw [if_pos hc]
    simp [hc]

/-- Witness for C1: a single in-range pixel with 1x1 metadata encodes. -/
theorem encoder_accepts_iff_pixel_count_witness :
    (specEncode [⟨10, 100, 200, 255⟩] 1 1 false false).isSome :=
  (encoder_accepts_iff_pixel_count [⟨10, 100, 200, 255⟩] 1 1 false false
    (by decide)).mpr rfl

end JoeQoi
